import Mathlib

/-!
# Verification of the Fast-Api student/course/enrollment service

Shallow embedding of the data-access layer of the two application variants
(`Fastapi_mongo.py` and `fastapi_mongoass.py`).  MongoDB documents are
modelled as association lists of field name to value; collections are lists
of documents in insertion order; each route handler becomes a pure function
from the database state to a (result, new state) pair.

Python floats are abstracted to an integer magnitude plus a NaN flag: the
code only ever inspects NaN-ness (`math.isnan`), never float arithmetic.
Store-assigned ObjectIds are modelled by their hex-string payload.
-/

/-- A BSON/JSON value as the two applications manipulate it. -/
inductive Value where
  | vNull : Value
  | vInt (n : Int) : Value
  | vFloat (nan : Bool) (mag : Int) : Value
  | vStr (s : String) : Value
  | vOid (hex : String) : Value
deriving DecidableEq, Repr

/-- A Mongo document / Python dict: association list of field to value. -/
abbrev Doc := List (String × Value)

/-- First-occurrence field lookup (Python `doc[k]` / `k in doc`). -/
def lookupField (k : String) : Doc → Option Value
  | [] => none
  | (k', v) :: rest => if k' = k then some v else lookupField k rest

/-- Python dict assignment `doc[k] = v`: overwrite the first occurrence of
the key, or append the binding when the key is absent. -/
def setField (k : String) (v : Value) : Doc → Doc
  | [] => [(k, v)]
  | (k', v') :: rest =>
      if k' = k then (k, v) :: rest else (k', v') :: setField k v rest

/-- Python `str(x)` on the values the code stringifies.  `str` of an
ObjectId yields its hex payload; float formatting is abstracted. -/
def pyStr : Value → String
  | .vNull => "None"
  | .vInt n => toString n
  | .vFloat true _ => "nan"
  | .vFloat false m => toString m
  | .vStr s => s
  | .vOid h => h

/-- Python truthiness of a value (`if r[..]:`): `None`, `0`, `0.0` and the
empty string are falsy; NaN is truthy. -/
def pyTruthy : Value → Bool
  | .vNull => false
  | .vInt n => n != 0
  | .vFloat nan m => nan || m != 0
  | .vStr s => s != ""
  | .vOid _ => true

namespace FastapiMongo

/-- Model of `fix_id` from `Fastapi_mongo.py`: if the document is truthy and has an
`_id` field, replace the value of that field by its string form.  (An empty dict
is falsy but also has no `_id`, so the truthiness test collapses into the
presence test.) -/
def fix_id (doc : Doc) : Doc :=
  match lookupField "_id" doc with
  | some v => setField "_id" (.vStr (pyStr v)) doc
  | none => doc

/-- Body of the per-value loop of `clean_document`: NaN floats become
`None`, ObjectIds become their string form, everything else is kept. -/
def cleanValue : Value → Value
  | .vFloat true _ => .vNull
  | .vOid h => .vStr h
  | v => v

/-- Model of `clean_document` from `Fastapi_mongo.py`: stringify `_id` when present,
then rewrite every field value by the NaN/ObjectId normalisation loop. -/
def clean_document (doc : Doc) : Doc :=
  (match lookupField "_id" doc with
   | some v => setField "_id" (.vStr (pyStr v)) doc
   | none => doc).map fun kv : String × Value => (kv.1, cleanValue kv.2)

end FastapiMongo

namespace FastapiMongoass

/-- Model of `clean_document` from `fastapi_mongoass.py`: unconditionally reads
`doc["_id"]` and replaces it by its string form; a document without `_id`
raises `KeyError`, modelled as `none`. -/
def clean_document (doc : Doc) : Option Doc :=
  (lookupField "_id" doc).map fun v => setField "_id" (.vStr (pyStr v)) doc

end FastapiMongoass

-- ### Aggregation engine ($group / $sort / $lookup / $unwind / $project)

/-- The `$group` key `"$grade"`: the `grade` value of a document, `null` when the
field is absent (Mongo groups missing fields under a `null` key). -/
def gradeKey (d : Doc) : Value := (lookupField "grade" d).getD .vNull

/-- The `$group` key `"$course_id"` over enrollment documents. -/
def courseKey (d : Doc) : Value := (lookupField "course_id" d).getD .vNull

/-- The distinct group keys of a collection, in first-appearance order. -/
def groupKeys (key : Doc → Value) (l : List Doc) : List Value :=
  l.foldl (fun acc d => if key d ∈ acc then acc else acc ++ [key d]) []

/-- Model of `{"$group": {"_id": "$key", "count": {"$sum": 1}}}`: one `(key, count)`
pair per distinct key value, the count being the size of the group. -/
def groupCounts (key : Doc → Value) (l : List Doc) : List (Value × Nat) :=
  (groupKeys key l).map fun g => (g, l.countP fun d => decide (key d = g))

/-- Descending order on group counts, the `{"$sort": {"count": -1}}` stage. -/
def countGe (a b : Value × Nat) : Prop := b.2 ≤ a.2

instance : DecidableRel countGe := fun a b => Nat.decLe b.2 a.2

instance : IsTotal (Value × Nat) countGe :=
  ⟨fun a b => (Nat.le_total b.2 a.2).elim Or.inl Or.inr⟩

instance : IsTrans (Value × Nat) countGe :=
  ⟨fun _ _ _ hab hbc => Nat.le_trans hbc hab⟩

namespace FastapiMongo

/-- Model of `get_grade_stats` from `Fastapi_mongo.py`: group students by grade and
count, then build the result dict keeping only truthy grade keys
(`{r["_id"]: r["count"] for r in results if r["_id"]}`). -/
def get_grade_stats (students : List Doc) : List (Value × Nat) :=
  (groupCounts gradeKey students).filter fun p => pyTruthy p.1

/-- The `$project` stage of the top-courses pipeline: `_id` dropped,
`course_id` from the group key, `course_name` from the joined course
document (omitted when the course lacks the field), `enrollments` from the
group count. -/
def projectTop (g : Value) (n : Nat) (c : Doc) : Doc :=
  [("course_id", g)]
    ++ (match lookupField "course_name" c with
        | some v => [("course_name", v)]
        | none => [])
    ++ [("enrollments", Value.vInt (n : Int))]

/-- Model of `get_top_courses` from `Fastapi_mongo.py`: group enrollments by
`course_id`, count, sort descending by count, `$lookup` the key of each group
against the courses collection, `$unwind` the matches (dropping groups with
no matching course), and `$project` to course_id/course_name/enrollments. -/
def get_top_courses (enrollments courses : List Doc) : List Doc :=
  ((List.insertionSort countGe (groupCounts courseKey enrollments)).map
      fun p =>
        (courses.filter fun c => decide (lookupField "course_id" c = some p.1)).map
          fun c => projectTop p.1 p.2 c).flatten

end FastapiMongo

namespace FastapiMongoass

/-- Model of `grade_stats` from `fastapi_mongoass.py`: the same `$group` pipeline but
the result dict keeps every group, the `null` (absent-grade) key included. -/
def grade_stats (students : List Doc) : List (Value × Nat) :=
  groupCounts gradeKey students

/-- Model of `top_courses` from `fastapi_mongoass.py`: only `$group` and `$sort` —
no `$lookup` join and no `$project`, so each result document is the raw
group `{_id, count}`. -/
def top_courses (enrollments : List Doc) : List Doc :=
  (List.insertionSort countGe (groupCounts courseKey enrollments)).map
    fun p => [("_id", p.1), ("count", Value.vInt (p.2 : Int))]

end FastapiMongoass

-- ### Database state and collection primitives

/-- The logical document store: the three collections the handlers touch.
Documents are kept in insertion order (the Mongo natural order for these
unindexed scans).  Store-assigned `_id`s play no role in any lookup, so
inserted documents are modelled without them. -/
structure DB where
  students : List Doc
  courses : List Doc
  enrollments : List Doc
deriving DecidableEq, Repr

/-- Outcome of a route handler: a normal JSON response, a raised
`HTTPException` with its status code and detail, or an uncaught Python
exception (e.g. `KeyError`). -/
inductive HResult (α : Type) where
  | ok (payload : α)
  | httpError (status : Nat) (detail : String)
  | pyError
deriving DecidableEq, Repr

/-- The request body of `POST /enrollments` (the `Enrollment` model). -/
structure Enrollment where
  student_id : Int
  course_id : Int
deriving DecidableEq, Repr

/-- Result of `model_dump()` on an `Enrollment`. -/
def enrollmentDoc (e : Enrollment) : Doc :=
  [("student_id", .vInt e.student_id), ("course_id", .vInt e.course_id)]

/-- The query filter `{"student_id": sid}` (on int-keyed documents). -/
def matchesStudentId (sid : Int) (d : Doc) : Bool :=
  decide (lookupField "student_id" d = some (.vInt sid))

/-- Model of `find_one(filter)`: first document matching the filter. -/
def findOne (p : Doc → Bool) (l : List Doc) : Option Doc := l.find? p

/-- Model of `delete_one(filter)`: remove the first matching document, returning the
new collection and `deleted_count`. -/
def deleteFirst (p : Doc → Bool) : List Doc → List Doc × Nat
  | [] => ([], 0)
  | d :: rest =>
      if p d then (rest, 1)
      else
        let r := deleteFirst p rest
        (d :: r.1, r.2)

/-- Document transformation of `update_one(filter, {"$set": upd})`: set every
field of `upd` in turn. -/
def applySet (upd : Doc) (d : Doc) : Doc :=
  upd.foldl (fun acc kv => setField kv.1 kv.2 acc) d

/-- Model of `update_one(filter, {"$set": upd})`: rewrite the first matching
document, returning the new collection and `modified_count` (0 when the
match is left textually unchanged, as Mongo reports). -/
def updateFirst (p : Doc → Bool) (f : Doc → Doc) : List Doc → List Doc × Nat
  | [] => ([], 0)
  | d :: rest =>
      if p d then (f d :: rest, if f d = d then 0 else 1)
      else
        let r := updateFirst p f rest
        (d :: r.1, r.2)

-- ### Identifier allocator (`find_one(sort=[(key, -1)])`)

/-- Rank of the BSON type of the value in the Mongo cross-type sort order
(restricted to the types occurring here): null < numbers < strings <
ObjectIds.  A missing field sorts together with null. -/
def typeRank : Value → Nat
  | .vNull => 0
  | .vInt _ => 1
  | .vFloat _ _ => 1
  | .vStr _ => 2
  | .vOid _ => 3

/-- Model of the Mongo sort comparison on the values occurring here; NaN sorts below
every other number. -/
def valueLe (a b : Value) : Bool :=
  if typeRank a = typeRank b then
    match a, b with
    | .vInt x, .vInt y => decide (x ≤ y)
    | .vInt x, .vFloat ny y => !ny && decide (x ≤ y)
    | .vFloat nx x, .vInt y => nx || decide (x ≤ y)
    | .vFloat nx x, .vFloat ny y => nx || (!ny && decide (x ≤ y))
    | .vStr x, .vStr y => decide (x ≤ y)
    | .vOid x, .vOid y => decide (x ≤ y)
    | _, _ => true
  else decide (typeRank a ≤ typeRank b)

/-- Running maximum of the scan of the descending sort: keep the document
whose `key` value is largest so far (missing fields sort as null). -/
def maxFold (key : String) (b : Doc) (l : List Doc) : Doc :=
  l.foldl
    (fun best x =>
      if valueLe ((lookupField key best).getD .vNull)
          ((lookupField key x).getD .vNull) then x else best)
    b

/-- The document `find_one(sort=[(key, -1)])` returns: a document whose
`key` value is maximal in the Mongo sort order (`none` on an empty
collection).  Ties are resolved towards later documents; which tie the real
server returns is unspecified and never relied upon below. -/
def maxByKey (key : String) : List Doc → Option Doc
  | [] => none
  | d :: rest => some (maxFold key d rest)

namespace FastapiMongo

/-- Model of `get_next_student_id`: the `student_id` of the maximal-id document plus
one, or 1 on an empty collection.  Raising of `KeyError`/`TypeError` by Python on a
top document without an integer `student_id` is modelled as `none`. -/
def get_next_student_id (db : DB) : Option Int :=
  match maxByKey "student_id" db.students with
  | none => some 1
  | some d =>
      match lookupField "student_id" d with
      | some (.vInt n) => some (n + 1)
      | _ => none

/-- Model of `get_next_course_id`: the same scheme over the courses collection. -/
def get_next_course_id (db : DB) : Option Int :=
  match maxByKey "course_id" db.courses with
  | none => some 1
  | some d =>
      match lookupField "course_id" d with
      | some (.vInt n) => some (n + 1)
      | _ => none

/-- Handler `GET /students/{student_id}` from `Fastapi_mongo.py`: 404 when absent,
otherwise the document through `fix_id`. -/
def get_student (sid : Int) (db : DB) : HResult Doc × DB :=
  match findOne (matchesStudentId sid) db.students with
  | none => (.httpError 404 "Student not found", db)
  | some d => (.ok (fix_id d), db)

/-- Handler `PUT /students/{student_id}` from `Fastapi_mongo.py`.  `upd` is
`student.model_dump(exclude_unset=True)`, the `$set` payload; the response
reports `modified_count` as `updated_count`. -/
def update_student (sid : Int) (upd : Doc) (db : DB) : HResult Doc × DB :=
  let r := updateFirst (matchesStudentId sid) (applySet upd) db.students
  (.ok [("updated_count", .vInt (r.2 : Int))], { db with students := r.1 })

/-- Handler `DELETE /students/{student_id}` from `Fastapi_mongo.py`: refuse (with a
zero count and a message, not an error) when an enrollment references the
student, otherwise delete and report `deleted_count`. -/
def delete_student (sid : Int) (db : DB) : HResult Doc × DB :=
  match findOne (matchesStudentId sid) db.enrollments with
  | some _ =>
      (.ok [("deleted_count", .vInt 0),
            ("message", .vStr "Cannot delete student: already enrolled in a course")],
       db)
  | none =>
      let r := deleteFirst (matchesStudentId sid) db.students
      (.ok [("deleted_count", .vInt (r.2 : Int))], { db with students := r.1 })

/-- Handler `POST /enrollments` from `Fastapi_mongo.py`: 404 when the student or
the course is absent, otherwise insert the pair unconditionally.  (The
string `inserted_id` of the response is the store-assigned ObjectId, which is
not modelled.) -/
def enroll_student (e : Enrollment) (db : DB) : HResult Unit × DB :=
  if (findOne (matchesStudentId e.student_id) db.students).isNone then
    (.httpError 404 "Student not found", db)
  else if (findOne (fun d => decide (lookupField "course_id" d = some (.vInt e.course_id)))
      db.courses).isNone then
    (.httpError 404 "Course not found", db)
  else
    (.ok (), { db with enrollments := db.enrollments ++ [enrollmentDoc e] })

/-- The student dict built by `POST /form/student`. -/
def formStudentDoc (n : Int) (name : String) (age : Int) (grade email : String) : Doc :=
  [("student_id", .vInt n), ("name", .vStr name), ("age", .vInt age),
   ("grade", .vStr grade), ("email", .vStr email)]

/-- Handler `POST /form/student` from `Fastapi_mongo.py`: allocator-assigned id,
then insert.  `none` models the allocator raising. -/
def submit_student (name : String) (age : Int) (grade email : String)
    (db : DB) : Option DB :=
  (get_next_student_id db).map fun n =>
    { db with students := db.students ++ [formStudentDoc n name age grade email] }

end FastapiMongo

namespace FastapiMongoass

/-- Handler `GET /students/{student_id}` from `fastapi_mongoass.py`: a plain
`{"detail": "Not found"}` success payload when absent — no exception. -/
def get_student (sid : Int) (db : DB) : HResult Doc × DB :=
  match findOne (matchesStudentId sid) db.students with
  | none => (.ok [("detail", .vStr "Not found")], db)
  | some d =>
      match clean_document d with
      | some c => (.ok c, db)
      | none => (.pyError, db)

/-- Handler `PUT /students/{student_id}` from `fastapi_mongoass.py`: performs the
`$set` but answers with a fixed message, discarding the modified count. -/
def update_student (sid : Int) (upd : Doc) (db : DB) : HResult Doc × DB :=
  let r := updateFirst (matchesStudentId sid) (applySet upd) db.students
  (.ok [("message", .vStr "Student updated")], { db with students := r.1 })

/-- Handler `DELETE /students/{student_id}` from `fastapi_mongoass.py`: refuse with
a message when an enrollment references the student, else delete and
answer with a fixed message (no count). -/
def delete_student (sid : Int) (db : DB) : HResult Doc × DB :=
  match findOne (matchesStudentId sid) db.enrollments with
  | some _ => (.ok [("detail", .vStr "Student is enrolled in a course")], db)
  | none =>
      let r := deleteFirst (matchesStudentId sid) db.students
      (.ok [("message", .vStr "Student deleted")], { db with students := r.1 })

/-- Handler `POST /enrollments` from `fastapi_mongoass.py`: no existence check at
all — the pair is inserted unconditionally. -/
def enroll_student (e : Enrollment) (db : DB) : HResult Unit × DB :=
  (.ok (), { db with enrollments := db.enrollments ++ [enrollmentDoc e] })

end FastapiMongoass

-- ### Derived notions used to state the claims

/-- The integer identifiers stored under `key` across a collection
(documents without an integer value there contribute nothing). -/
def idsAt (key : String) (l : List Doc) : List Int :=
  l.filterMap fun d =>
    match lookupField key d with
    | some (.vInt n) => some n
    | _ => none

/-- Every document of the collection carries an integer under `key`. -/
def allIntAt (key : String) (l : List Doc) : Bool :=
  l.all fun d =>
    match lookupField key d with
    | some (.vInt _) => true
    | _ => false

/-- The `enrollments` count field of a projected top-courses record. -/
def docCount (d : Doc) : Int :=
  match lookupField "enrollments" d with
  | some (.vInt n) => n
  | _ => 0

namespace FastapiMongo

/-- The identifiers handed out by `get_next_student_id` over a run of `k`
consecutive form-based student creations (the only callers of the
allocator), starting from `db`.  The run stops if the allocator raises. -/
def allocRun : Nat → DB → List Int
  | 0, _ => []
  | k + 1, db =>
      match get_next_student_id db, submit_student "s" 0 "A" "s@x" db with
      | some n, some db' => n :: allocRun k db'
      | _, _ => []

end FastapiMongo

-- ### Basic lemmas about fields

theorem lookupField_setField_self (k : String) (v : Value) (d : Doc) :
    lookupField k (setField k v d) = some v := by
  induction d with
  | nil => simp [setField, lookupField]
  | cons kv rest ih =>
      obtain ⟨k', v'⟩ := kv
      by_cases h : k' = k
      · simp [setField, lookupField, h]
      · simp [setField, lookupField, h, ih]

theorem lookupField_setField_ne (k k' : String) (v : Value) (d : Doc)
    (h : k' ≠ k) : lookupField k' (setField k v d) = lookupField k' d := by
  induction d with
  | nil => simp [setField, lookupField, Ne.symm h]
  | cons kv rest ih =>
      obtain ⟨k₀, v₀⟩ := kv
      by_cases h₀ : k₀ = k
      · subst h₀
        have hk : k₀ ≠ k' := fun hh => h (hh ▸ rfl)
        simp [setField, lookupField, hk, Ne.symm h]
      · simp only [setField, if_neg h₀, lookupField]
        by_cases h₁ : k₀ = k'
        · simp [h₁]
        · simp [h₁, ih]

theorem setField_of_lookup_eq (k : String) (v : Value) :
    ∀ d : Doc, lookupField k d = some v → setField k v d = d := by
  intro d
  induction d with
  | nil => simp [lookupField]
  | cons kv rest ih =>
      obtain ⟨k', v'⟩ := kv
      by_cases h : k' = k
      · subst h
        intro hv
        have hv' : v' = v := by simpa [lookupField] using hv
        simp [setField, hv']
      · simp only [lookupField, if_neg h, setField, if_neg h]
        intro hv
        simp [ih hv]

theorem pyStr_vStr (s : String) : pyStr (.vStr s) = s := rfl

theorem lookupField_map (f : Value → Value) (k : String) :
    ∀ d : Doc,
      lookupField k (d.map fun kv => (kv.1, f kv.2))
        = (lookupField k d).map f := by
  intro d
  induction d with
  | nil => simp [lookupField]
  | cons kv rest ih =>
      obtain ⟨k', v'⟩ := kv
      by_cases h : k' = k
      · simp [lookupField, h]
      · simp [lookupField, h, ih]

namespace FastapiMongo

theorem cleanValue_idem (v : Value) : cleanValue (cleanValue v) = cleanValue v := by
  cases v with
  | vFloat nan m => cases nan <;> rfl
  | _ => rfl

theorem fix_id_idem (d : Doc) : fix_id (fix_id d) = fix_id d := by
  unfold fix_id
  cases h : lookupField "_id" d with
  | none => simp [h]
  | some v =>
      simp only [h, lookupField_setField_self, pyStr_vStr]
      exact setField_of_lookup_eq _ _ _ (lookupField_setField_self _ _ _)

theorem clean_document_idem (d : Doc) :
    clean_document (clean_document d) = clean_document d := by
  unfold clean_document
  cases h : lookupField "_id" d with
  | none =>
      have hl : lookupField "_id" (d.map fun kv => (kv.1, cleanValue kv.2)) = none := by
        rw [lookupField_map, h]; rfl
      simp only [hl, List.map_map]
      congr 1
      funext kv
      simp [Function.comp, cleanValue_idem]
  | some v =>
      have hl :
          lookupField "_id"
              ((setField "_id" (.vStr (pyStr v)) d).map fun kv => (kv.1, cleanValue kv.2))
            = some (.vStr (pyStr v)) := by
        rw [lookupField_map, lookupField_setField_self]; rfl
      simp only [hl, pyStr_vStr]
      rw [setField_of_lookup_eq _ _ _ hl, List.map_map]
      congr 1
      funext kv
      simp [Function.comp, cleanValue_idem]

end FastapiMongo

namespace FastapiMongoass

theorem clean_document_bind_idem (d : Doc) :
    (clean_document d).bind clean_document = clean_document d := by
  unfold clean_document
  cases h : lookupField "_id" d with
  | none => simp [h]
  | some v =>
      simp only [Option.map_some', Option.some_bind,
        lookupField_setField_self, pyStr_vStr]
      congr 1
      exact setField_of_lookup_eq _ _ _
        (lookupField_setField_self "_id" (Value.vStr (pyStr v)) d)

end FastapiMongoass

-- ### Lemmas about grouping

theorem mem_groupKeys_aux (key : Doc → Value) :
    ∀ (l : List Doc) (acc : List Value) (g : Value),
      g ∈ l.foldl (fun acc d => if key d ∈ acc then acc else acc ++ [key d]) acc
        ↔ g ∈ acc ∨ g ∈ l.map key := by
  intro l
  induction l with
  | nil => simp
  | cons d rest ih =>
      intro acc g
      simp only [List.foldl_cons, List.map_cons, List.mem_cons]
      by_cases h : key d ∈ acc
      · rw [if_pos h, ih]
        constructor
        · rintro (ha | hr)
          · exact Or.inl ha
          · exact Or.inr (Or.inr hr)
        · rintro (ha | he | hr)
          · exact Or.inl ha
          · exact Or.inl (he ▸ h)
          · exact Or.inr hr
      · rw [if_neg h, ih]
        simp only [List.mem_append, List.mem_singleton]
        tauto

theorem mem_groupKeys (key : Doc → Value) (l : List Doc) (g : Value) :
    g ∈ groupKeys key l ↔ g ∈ l.map key := by
  unfold groupKeys
  rw [mem_groupKeys_aux]
  simp

theorem mem_groupCounts (key : Doc → Value) (l : List Doc) (g : Value) (n : Nat)
    (h : (g, n) ∈ groupCounts key l) :
    g ∈ l.map key ∧ n = l.countP fun d => decide (key d = g) := by
  unfold groupCounts at h
  obtain ⟨g₀, hg₀, heq⟩ := List.mem_map.mp h
  injection heq with hg hn
  subst hg
  exact ⟨(mem_groupKeys key l _).mp hg₀, hn.symm⟩


-- ### Claim theorems

/-- C10: document normalization is idempotent — a second application of
`fix_id` or of `clean_document` from `Fastapi_mongo.py` changes nothing, and
`clean_document` from `fastapi_mongoass.py`, when it succeeds, is likewise
fixed by a second application. -/
theorem claim_C10_normalize_idempotent :
    (∀ d : Doc, FastapiMongo.fix_id (FastapiMongo.fix_id d) = FastapiMongo.fix_id d)
      ∧ (∀ d : Doc,
          FastapiMongo.clean_document (FastapiMongo.clean_document d)
            = FastapiMongo.clean_document d)
      ∧ (∀ d : Doc,
          (FastapiMongoass.clean_document d).bind FastapiMongoass.clean_document
            = FastapiMongoass.clean_document d) :=
  ⟨FastapiMongo.fix_id_idem, FastapiMongo.clean_document_idem,
    FastapiMongoass.clean_document_bind_idem⟩

/-- C5 counterexample: `clean_document` also rewrites an ObjectId stored
under a field other than `_id` (here `advisor`) into its string form, so
the claimed "leaves every other field value unchanged" is false on this
document. -/
theorem claim_C5_cex :
    FastapiMongo.clean_document
        [("_id", Value.vOid "65a"), ("advisor", Value.vOid "65b")]
      = [("_id", Value.vStr "65a"), ("advisor", Value.vStr "65b")]
    ∧ Value.vOid "65b" ≠ Value.vStr "65b" := by
  constructor
  · rfl
  · decide

/-- C5 (amended, per variant): in `Fastapi_mongo.py`, `clean_document`
replaces the `_id` value by its string form under the same field name and
maps every other field through the per-value normalisation, which sends
NaN floats to null, ObjectIds to their string form, and leaves every other
value unchanged; in `fastapi_mongoass.py`, `clean_document` only replaces
the `_id` value by its string form — every other field is left exactly as
it was, NaN floats and ObjectIds included — and raises `KeyError` (here
`none`) on a document without `_id`. -/
theorem claim_C5_normalize :
    (∀ (d : Doc) (v : Value), lookupField "_id" d = some v →
        lookupField "_id" (FastapiMongo.clean_document d)
          = some (.vStr (pyStr v)))
      ∧ (∀ (d : Doc) (k : String), k ≠ "_id" →
          lookupField k (FastapiMongo.clean_document d)
            = (lookupField k d).map FastapiMongo.cleanValue)
      ∧ (∀ m : Int, FastapiMongo.cleanValue (.vFloat true m) = .vNull)
      ∧ (∀ m : Int, FastapiMongo.cleanValue (.vFloat false m) = .vFloat false m)
      ∧ (∀ s : String, FastapiMongo.cleanValue (.vOid s) = .vStr s)
      ∧ (∀ s : String, FastapiMongo.cleanValue (.vStr s) = .vStr s)
      ∧ (∀ n : Int, FastapiMongo.cleanValue (.vInt n) = .vInt n)
      ∧ FastapiMongo.cleanValue .vNull = .vNull
      ∧ (∀ (d e : Doc) (v : Value), lookupField "_id" d = some v →
          FastapiMongoass.clean_document d = some e →
          lookupField "_id" e = some (.vStr (pyStr v))
            ∧ ∀ k : String, k ≠ "_id" → lookupField k e = lookupField k d)
      ∧ (∀ d : Doc, lookupField "_id" d = none →
          FastapiMongoass.clean_document d = none) := by
  refine ⟨?_, ?_, fun _ => rfl, fun _ => rfl, fun _ => rfl, fun _ => rfl,
    fun _ => rfl, rfl, ?_, ?_⟩
  · intro d v h
    unfold FastapiMongo.clean_document
    rw [h, lookupField_map, lookupField_setField_self]
    rfl
  · intro d k hk
    unfold FastapiMongo.clean_document
    cases h : lookupField "_id" d with
    | none => rw [lookupField_map]
    | some v => rw [lookupField_map, lookupField_setField_ne _ _ _ _ hk]
  · intro d e v h he
    unfold FastapiMongoass.clean_document at he
    rw [h] at he
    injection he with he'
    rw [← he']
    exact ⟨lookupField_setField_self _ _ _,
      fun k hk => lookupField_setField_ne _ _ _ _ hk⟩
  · intro d h
    unfold FastapiMongoass.clean_document
    rw [h]
    rfl

/-- C5 witness: the amended per-variant normalisation evaluated on a
concrete document, for both `clean_document` implementations. -/
theorem claim_C5_witness :
    lookupField "_id"
        (FastapiMongo.clean_document [("_id", Value.vOid "a"), ("x", Value.vInt 3)])
      = some (Value.vStr (pyStr (Value.vOid "a")))
    ∧ lookupField "x"
        (FastapiMongo.clean_document [("_id", Value.vOid "a"), ("x", Value.vInt 3)])
      = (lookupField "x" [("_id", Value.vOid "a"), ("x", Value.vInt 3)]).map
          FastapiMongo.cleanValue
    ∧ (lookupField "_id"
          [("_id", Value.vStr "a"), ("x", Value.vFloat true 0)]
        = some (Value.vStr (pyStr (Value.vOid "a")))
      ∧ ∀ k : String, k ≠ "_id" →
          lookupField k [("_id", Value.vStr "a"), ("x", Value.vFloat true 0)]
            = lookupField k [("_id", Value.vOid "a"), ("x", Value.vFloat true 0)]) :=
  ⟨claim_C5_normalize.1 _ _ (by decide),
    claim_C5_normalize.2.1 _ "x" (by decide),
    claim_C5_normalize.2.2.2.2.2.2.2.2.1
      [("_id", Value.vOid "a"), ("x", Value.vFloat true 0)]
      [("_id", Value.vStr "a"), ("x", Value.vFloat true 0)]
      (Value.vOid "a") (by decide) (by decide)⟩

/-- C9 counterexample: in `fastapi_mongoass.py`, reading a student that
does not exist yields a normal success payload `{"detail": "Not found"}`
rather than a raised, structured `NotFound` failure. -/
theorem claim_C9_cex :
    FastapiMongoass.get_student 1 ⟨[], [], []⟩
      = (.ok [("detail", Value.vStr "Not found")], ⟨[], [], []⟩) := by
  decide

/-- C9 (amended): in the `Fastapi_mongo.py` variant, reading an absent
student raises a structured HTTP 404 "Student not found" failure and
leaves the store untouched; the `fastapi_mongoass.py` variant instead
answers with a success payload. -/
theorem claim_C9_get_absent :
    ∀ (sid : Int) (db : DB),
      findOne (matchesStudentId sid) db.students = none →
      FastapiMongo.get_student sid db = (.httpError 404 "Student not found", db) := by
  intro sid db h
  unfold FastapiMongo.get_student
  rw [h]

/-- C9 witness: the 404 behaviour on a concrete store. -/
theorem claim_C9_witness :
    FastapiMongo.get_student 7 ⟨[[("student_id", Value.vInt 1)]], [], []⟩
      = (.httpError 404 "Student not found",
         ⟨[[("student_id", Value.vInt 1)]], [], []⟩) :=
  claim_C9_get_absent 7 _ (by decide)

/-- C1 counterexample: in `fastapi_mongoass.py`, an enrollment request
whose student (and course) do not exist does not fail with `NotFound` —
the pair is inserted into the enrollments collection and the handler
answers with success. -/
theorem claim_C1_cex :
    FastapiMongoass.enroll_student ⟨1, 1⟩ ⟨[], [], []⟩
      = (.ok (),
         ⟨[], [], [[("student_id", Value.vInt 1), ("course_id", Value.vInt 1)]]⟩) := by
  decide

/-- C1 (amended): in the `Fastapi_mongo.py` variant, enrollment creation
fails with HTTP 404 (student, then course) and inserts nothing when either
referenced entity is absent, and otherwise appends the pair
unconditionally; the `fastapi_mongoass.py` variant performs no existence
check at all. -/
theorem claim_C1_enroll :
    ∀ (e : Enrollment) (db : DB),
      (findOne (matchesStudentId e.student_id) db.students = none →
        FastapiMongo.enroll_student e db = (.httpError 404 "Student not found", db))
      ∧ (∀ s : Doc,
          findOne (matchesStudentId e.student_id) db.students = some s →
          findOne (fun d => decide (lookupField "course_id" d
              = some (.vInt e.course_id))) db.courses = none →
          FastapiMongo.enroll_student e db = (.httpError 404 "Course not found", db))
      ∧ (∀ s c : Doc,
          findOne (matchesStudentId e.student_id) db.students = some s →
          findOne (fun d => decide (lookupField "course_id" d
              = some (.vInt e.course_id))) db.courses = some c →
          FastapiMongo.enroll_student e db
            = (.ok (), { db with enrollments := db.enrollments ++ [enrollmentDoc e] })) := by
  intro e db
  refine ⟨?_, ?_, ?_⟩
  · intro h
    unfold FastapiMongo.enroll_student
    rw [h]
    rfl
  · intro s hs hc
    unfold FastapiMongo.enroll_student
    rw [hs, hc]
    rfl
  · intro s c hs hc
    unfold FastapiMongo.enroll_student
    rw [hs, hc]
    rfl

/-- C1 witness: the three branches on concrete stores; the success branch
is exercised on a store that already holds the identical pair, so the
second, duplicate pair is still inserted (no duplicate-pair check). -/
theorem claim_C1_witness :
    FastapiMongo.enroll_student ⟨3, 4⟩
        ⟨[], [[("course_id", Value.vInt 4)]], []⟩
      = (.httpError 404 "Student not found",
         ⟨[], [[("course_id", Value.vInt 4)]], []⟩)
    ∧ FastapiMongo.enroll_student ⟨3, 4⟩
        ⟨[[("student_id", Value.vInt 3)]], [], []⟩
      = (.httpError 404 "Course not found",
         ⟨[[("student_id", Value.vInt 3)]], [], []⟩)
    ∧ FastapiMongo.enroll_student ⟨3, 4⟩
        ⟨[[("student_id", Value.vInt 3)]], [[("course_id", Value.vInt 4)]],
         [enrollmentDoc ⟨3, 4⟩]⟩
      = (.ok (),
         ⟨[[("student_id", Value.vInt 3)]], [[("course_id", Value.vInt 4)]],
          [enrollmentDoc ⟨3, 4⟩, enrollmentDoc ⟨3, 4⟩]⟩) :=
  ⟨(claim_C1_enroll ⟨3, 4⟩ _).1 (by decide),
   (claim_C1_enroll ⟨3, 4⟩ _).2.1 [("student_id", Value.vInt 3)] (by decide) (by decide),
   (claim_C1_enroll ⟨3, 4⟩ _).2.2 [("student_id", Value.vInt 3)]
     [("course_id", Value.vInt 4)] (by decide) (by decide)⟩

/-- C2: when at least one enrollment references the student, both
variants' delete handlers answer with a normal (non-error) response — a
zero `deleted_count` plus explanatory message in `Fastapi_mongo.py`, an
explanatory message in `fastapi_mongoass.py` — and leave the whole store
(students and enrollments collections included) unchanged. -/
theorem claim_C2_delete_guard :
    ∀ (sid : Int) (db : DB) (e : Doc),
      findOne (matchesStudentId sid) db.enrollments = some e →
      FastapiMongo.delete_student sid db
          = (.ok [("deleted_count", Value.vInt 0),
                  ("message",
                   Value.vStr "Cannot delete student: already enrolled in a course")],
             db)
        ∧ FastapiMongoass.delete_student sid db
            = (.ok [("detail", Value.vStr "Student is enrolled in a course")], db) := by
  intro sid db e h
  constructor
  · unfold FastapiMongo.delete_student
    rw [h]
  · unfold FastapiMongoass.delete_student
    rw [h]

/-- C2 witness: a store with one student and one enrollment referencing
it; both delete handlers leave it unchanged. -/
theorem claim_C2_witness :
    FastapiMongo.delete_student 3
        ⟨[[("student_id", Value.vInt 3)]], [], [enrollmentDoc ⟨3, 4⟩]⟩
      = (.ok [("deleted_count", Value.vInt 0),
              ("message",
               Value.vStr "Cannot delete student: already enrolled in a course")],
         ⟨[[("student_id", Value.vInt 3)]], [], [enrollmentDoc ⟨3, 4⟩]⟩)
    ∧ FastapiMongoass.delete_student 3
        ⟨[[("student_id", Value.vInt 3)]], [], [enrollmentDoc ⟨3, 4⟩]⟩
      = (.ok [("detail", Value.vStr "Student is enrolled in a course")],
         ⟨[[("student_id", Value.vInt 3)]], [], [enrollmentDoc ⟨3, 4⟩]⟩) :=
  claim_C2_delete_guard 3 _ (enrollmentDoc ⟨3, 4⟩) (by decide)

theorem updateFirst_of_no_match (p : Doc → Bool) (f : Doc → Doc) :
    ∀ l : List Doc, (∀ x ∈ l, p x = false) → updateFirst p f l = (l, 0) := by
  intro l
  induction l with
  | nil => intro _; rfl
  | cons d rest ih =>
      intro h
      have hd := h d (List.mem_cons_self ..)
      simp [updateFirst, hd, ih fun x hx => h x (List.mem_cons_of_mem _ hx)]

theorem updateFirst_split (p : Doc → Bool) (f : Doc → Doc) (d : Doc)
    (hd : p d = true) :
    ∀ pre post : List Doc, (∀ x ∈ pre, p x = false) →
      updateFirst p f (pre ++ d :: post)
        = (pre ++ f d :: post, if f d = d then 0 else 1) := by
  intro pre
  induction pre with
  | nil => intro post _; simp [updateFirst, hd]
  | cons a rest ih =>
      intro post h
      have ha := h a (List.mem_cons_self ..)
      simp [updateFirst, ha, ih post fun x hx => h x (List.mem_cons_of_mem _ hx)]

/-- C8 cex: the update handler of `fastapi_mongoass.py` never reports the
modified count — on a store with no matching student it still answers the
fixed success message `{"message": "Student updated"}` instead of a count
of 0. -/
theorem claim_C8_cex :
    FastapiMongoass.update_student 1 [("age", Value.vInt 30)] ⟨[], [], []⟩
      = (.ok [("message", Value.vStr "Student updated")], ⟨[], [], []⟩) := by
  decide

/-- C8 (amended, `Fastapi_mongo.py` variant): `$set`-updating only `age`
rewrites exactly the first matching student, leaves all its other fields
and all other students at their prior values, and reports the number of
documents actually modified — 0, not an error, when no student matches
(the `fastapi_mongoass.py` variant performs the update but answers a fixed
message instead of the count). -/
theorem claim_C8_partial_update :
    (∀ (sid : Int) (db : DB) (pre post : List Doc) (d : Doc),
      db.students = pre ++ d :: post →
      (∀ x ∈ pre, matchesStudentId sid x = false) →
      matchesStudentId sid d = true →
      FastapiMongo.update_student sid [("age", Value.vInt 30)] db
          = (.ok [("updated_count",
                Value.vInt (if applySet [("age", Value.vInt 30)] d = d then 0 else 1))],
             { db with students := pre ++ applySet [("age", Value.vInt 30)] d :: post })
        ∧ applySet [("age", Value.vInt 30)] d = setField "age" (Value.vInt 30) d
        ∧ (∀ k : String, k ≠ "age" →
            lookupField k (applySet [("age", Value.vInt 30)] d) = lookupField k d)
        ∧ lookupField "age" (applySet [("age", Value.vInt 30)] d)
            = some (Value.vInt 30))
      ∧ (∀ (sid : Int) (db : DB),
          (∀ x ∈ db.students, matchesStudentId sid x = false) →
          FastapiMongo.update_student sid [("age", Value.vInt 30)] db
            = (.ok [("updated_count", Value.vInt 0)], db)) := by
  constructor
  · intro sid db pre post d hsplit hpre hd
    refine ⟨?_, rfl, ?_, ?_⟩
    · unfold FastapiMongo.update_student
      rw [hsplit, updateFirst_split _ _ _ hd _ _ hpre]
      by_cases hc : applySet [("age", Value.vInt 30)] d = d <;> simp [hc]
    · intro k hk
      exact lookupField_setField_ne "age" k _ d hk
    · exact lookupField_setField_self "age" _ d
  · intro sid db h
    unfold FastapiMongo.update_student
    rw [updateFirst_of_no_match _ _ _ h]
    rfl

/-- C8 witness: a concrete age-only update modifying one student and a
concrete update against an absent identifier reporting 0. -/
theorem claim_C8_witness :
    FastapiMongo.update_student 1 [("age", Value.vInt 30)]
        ⟨[[("student_id", Value.vInt 1), ("age", Value.vInt 20)],
          [("student_id", Value.vInt 2), ("age", Value.vInt 9)]], [], []⟩
      = (.ok [("updated_count", Value.vInt 1)],
         ⟨[[("student_id", Value.vInt 1), ("age", Value.vInt 30)],
           [("student_id", Value.vInt 2), ("age", Value.vInt 9)]], [], []⟩)
      ∧ FastapiMongo.update_student 5 [("age", Value.vInt 30)]
          ⟨[[("student_id", Value.vInt 2), ("age", Value.vInt 9)]], [], []⟩
        = (.ok [("updated_count", Value.vInt 0)],
           ⟨[[("student_id", Value.vInt 2), ("age", Value.vInt 9)]], [], []⟩) := by
  constructor
  · have h := (claim_C8_partial_update.1 1
        ⟨[[("student_id", Value.vInt 1), ("age", Value.vInt 20)],
          [("student_id", Value.vInt 2), ("age", Value.vInt 9)]], [], []⟩
        [] [[("student_id", Value.vInt 2), ("age", Value.vInt 9)]]
        [("student_id", Value.vInt 1), ("age", Value.vInt 20)]
        rfl (by decide) (by decide)).1
    exact h.trans (by decide)
  · exact claim_C8_partial_update.2 5
      ⟨[[("student_id", Value.vInt 2), ("age", Value.vInt 9)]], [], []⟩ (by decide)

/-- C6 cex: the grade distribution of `fastapi_mongoass.py` keeps the group of
students with a null/absent grade — on a collection holding one document
without a `grade` field the mapping contains the entry with the null key,
which the claim says can never appear. -/
theorem claim_C6_cex :
    FastapiMongoass.grade_stats [[]] = [(Value.vNull, 1)] := by
  decide

/-- C6 (amended, `Fastapi_mongo.py` variant): every entry of the grade
distribution has a truthy (in particular non-null, non-absent) grade key
and counts exactly the students holding that grade, and over students with
grades A, A, B the result is the mapping A to 2, B to 1. -/
theorem claim_C6_grade_stats :
    (∀ (students : List Doc) (g : Value) (n : Nat),
      (g, n) ∈ FastapiMongo.get_grade_stats students →
      pyTruthy g = true ∧ g ≠ Value.vNull
        ∧ n = students.countP fun d => decide (gradeKey d = g))
      ∧ FastapiMongo.get_grade_stats
          [[("grade", Value.vStr "A")], [("grade", Value.vStr "A")],
           [("grade", Value.vStr "B")]]
        = [(Value.vStr "A", 2), (Value.vStr "B", 1)] := by
  constructor
  · intro students g n hmem
    unfold FastapiMongo.get_grade_stats at hmem
    have h2 := List.mem_filter.mp hmem
    have h3 := mem_groupCounts gradeKey students g n h2.1
    refine ⟨h2.2, ?_, h3.2⟩
    intro hg
    have ht := h2.2
    rw [hg] at ht
    simp [pyTruthy] at ht
  · decide

/-- C6 witness: the membership characterisation evaluated on the A, A, B
collection at the entry for grade A. -/
theorem claim_C6_witness :
    pyTruthy (Value.vStr "A") = true ∧ Value.vStr "A" ≠ Value.vNull
      ∧ 2 = List.countP (fun d => decide (gradeKey d = Value.vStr "A"))
          [[("grade", Value.vStr "A")], [("grade", Value.vStr "A")],
           [("grade", Value.vStr "B")]] :=
  claim_C6_grade_stats.1
    [[("grade", Value.vStr "A")], [("grade", Value.vStr "A")],
     [("grade", Value.vStr "B")]] (Value.vStr "A") 2 (by decide)

theorem pairwise_of_all {α : Type} (R : α → α → Prop) :
    ∀ l : List α, (∀ a ∈ l, ∀ b ∈ l, R a b) → l.Pairwise R := by
  intro l
  induction l with
  | nil => intro _; exact List.Pairwise.nil
  | cons a rest ih =>
      intro h
      refine List.Pairwise.cons ?_ (ih fun x hx y hy =>
        h x (List.mem_cons_of_mem _ hx) y (List.mem_cons_of_mem _ hy))
      intro b hb
      exact h a (List.mem_cons_self ..) b (List.mem_cons_of_mem _ hb)

theorem docCount_projectTop (g : Value) (n : Nat) (c : Doc) :
    docCount (FastapiMongo.projectTop g n c) = (n : Int) := by
  unfold docCount FastapiMongo.projectTop
  cases h : lookupField "course_name" c <;> simp [lookupField]

/-- C7 cex: the top-courses aggregation of `fastapi_mongoass.py` performs no
join and no projection — on enrollments with counts 3 and 1 (both courses
present in a well-formed store) its records are raw `{_id, count}` groups
carrying no `course_name` field, so the claimed
`{course_id, course_name, enrollment_count}` projection fails. -/
theorem claim_C7_cex :
    FastapiMongoass.top_courses
        [[("course_id", Value.vInt 2)], [("course_id", Value.vInt 1)],
         [("course_id", Value.vInt 1)], [("course_id", Value.vInt 1)]]
      = [[("_id", Value.vInt 1), ("count", Value.vInt 3)],
         [("_id", Value.vInt 2), ("count", Value.vInt 1)]]
    ∧ lookupField "course_name"
        [("_id", Value.vInt 1), ("count", Value.vInt 3)] = none := by
  constructor
  · decide
  · decide

/-- C7 (amended, `Fastapi_mongo.py` variant): the top-courses pipeline
groups enrollments by course_id, counts each group, joins to the course
document, projects each record to the group key, the course name and the
group count (under the field name `enrollments`), and orders the records
by descending enrollment count; with groups of 3 and 1 enrollments the
3-count course comes first. -/
theorem claim_C7_top_courses :
    (∀ es cs : List Doc,
      (FastapiMongo.get_top_courses es cs).Pairwise fun a b =>
        docCount b ≤ docCount a)
      ∧ (∀ (es cs : List Doc) (d : Doc),
          d ∈ FastapiMongo.get_top_courses es cs →
          ∃ (g : Value) (n : Nat) (c : Doc),
            c ∈ cs ∧ lookupField "course_id" c = some g
              ∧ g ∈ es.map courseKey
              ∧ n = es.countP (fun x => decide (courseKey x = g))
              ∧ d = FastapiMongo.projectTop g n c)
      ∧ FastapiMongo.get_top_courses
          [[("course_id", Value.vInt 2)], [("course_id", Value.vInt 1)],
           [("course_id", Value.vInt 1)], [("course_id", Value.vInt 1)]]
          [[("course_id", Value.vInt 1), ("course_name", Value.vStr "Math")],
           [("course_id", Value.vInt 2), ("course_name", Value.vStr "Sci")]]
        = [[("course_id", Value.vInt 1), ("course_name", Value.vStr "Math"),
            ("enrollments", Value.vInt 3)],
           [("course_id", Value.vInt 2), ("course_name", Value.vStr "Sci"),
            ("enrollments", Value.vInt 1)]] := by
  refine ⟨?_, ?_, by decide⟩
  · intro es cs
    unfold FastapiMongo.get_top_courses
    rw [List.pairwise_flatten]
    constructor
    · intro l hl
      obtain ⟨p, hp, rfl⟩ := List.mem_map.mp hl
      rw [List.pairwise_map]
      refine pairwise_of_all _ _ fun a ha b hb => ?_
      rw [docCount_projectTop, docCount_projectTop]
    · have hs := List.sorted_insertionSort countGe
        (groupCounts courseKey es)
      rw [List.pairwise_map]
      refine hs.imp ?_
      intro p q hpq x hx y hy
      obtain ⟨cx, hcx, rfl⟩ := List.mem_map.mp hx
      obtain ⟨cy, hcy, rfl⟩ := List.mem_map.mp hy
      rw [docCount_projectTop, docCount_projectTop]
      exact_mod_cast hpq
  · intro es cs d hd
    unfold FastapiMongo.get_top_courses at hd
    obtain ⟨l, hl, hdl⟩ := List.mem_flatten.mp hd
    obtain ⟨p, hp, rfl⟩ := List.mem_map.mp hl
    obtain ⟨c, hc, rfl⟩ := List.mem_map.mp hdl
    have hcf := List.mem_filter.mp hc
    have hp' := (List.mem_insertionSort countGe).mp hp
    have hgc := mem_groupCounts courseKey es p.1 p.2 hp'
    exact ⟨p.1, p.2, c, hcf.1, of_decide_eq_true hcf.2, hgc.1, hgc.2, rfl⟩

/-- C7 witness: the membership characterisation evaluated on a one-course
store. -/
theorem claim_C7_witness :
    ∃ (g : Value) (n : Nat) (c : Doc),
      c ∈ [[("course_id", Value.vInt 1), ("course_name", Value.vStr "Math")]]
        ∧ lookupField "course_id" c = some g
        ∧ g ∈ List.map courseKey [[("course_id", Value.vInt 1)]]
        ∧ n = List.countP (fun x => decide (courseKey x = g))
            [[("course_id", Value.vInt 1)]]
        ∧ [("course_id", Value.vInt 1), ("course_name", Value.vStr "Math"),
           ("enrollments", Value.vInt 1)]
            = FastapiMongo.projectTop g n c :=
  claim_C7_top_courses.2.1 [[("course_id", Value.vInt 1)]]
    [[("course_id", Value.vInt 1), ("course_name", Value.vStr "Math")]]
    _ (by decide)

-- ### Lemmas about the identifier allocator

theorem idsAt_mem (key : String) (l : List Doc) (i : Int) :
    i ∈ idsAt key l ↔ ∃ x ∈ l, lookupField key x = some (.vInt i) := by
  unfold idsAt
  rw [List.mem_filterMap]
  constructor
  · rintro ⟨x, hx, hf⟩
    refine ⟨x, hx, ?_⟩
    rcases hv : lookupField key x with _ | v
    · rw [hv] at hf
      simp at hf
    · rw [hv] at hf
      cases v <;> simp_all
  · rintro ⟨x, hx, hf⟩
    exact ⟨x, hx, by rw [hf]⟩

theorem intAt_of_true {key : String} {x : Doc}
    (h : (match lookupField key x with
          | some (.vInt _) => true
          | _ => false) = true) :
    ∃ mx : Int, lookupField key x = some (.vInt mx) := by
  rcases hv : lookupField key x with _ | v
  · rw [hv] at h
    simp at h
  · rw [hv] at h
    cases v <;> simp_all


theorem maxFold_spec (key : String) :
    ∀ (l : List Doc) (b : Doc) (mb : Int),
      lookupField key b = some (.vInt mb) →
      allIntAt key l = true →
      ∃ n : Int,
        lookupField key (maxFold key b l) = some (.vInt n)
          ∧ (maxFold key b l = b ∨ maxFold key b l ∈ l)
          ∧ mb ≤ n
          ∧ ∀ x ∈ l, ∀ i : Int, lookupField key x = some (.vInt i) → i ≤ n := by
  intro l
  induction l with
  | nil =>
      intro b mb hb _
      exact ⟨mb, hb, Or.inl rfl, le_refl mb, by simp⟩
  | cons x rest ih =>
      intro b mb hb hall
      rw [allIntAt, List.all_cons] at hall
      obtain ⟨hx, hrest⟩ := Bool.and_eq_true_iff.mp hall
      obtain ⟨mx, hmx⟩ := intAt_of_true hx
      have hval : valueLe ((lookupField key b).getD .vNull)
          ((lookupField key x).getD .vNull) = decide (mb ≤ mx) := by
        rw [hb, hmx]
        simp [valueLe, typeRank]
      by_cases hle : mb ≤ mx
      · have hstep : maxFold key b (x :: rest) = maxFold key x rest := by
          have h0 : maxFold key b (x :: rest)
              = maxFold key
                  (if valueLe ((lookupField key b).getD .vNull)
                      ((lookupField key x).getD .vNull) then x else b) rest := rfl
          rw [h0, hval]
          simp [hle]
        obtain ⟨n, hn, hmem, hmxn, hcov⟩ := ih x mx hmx hrest
        rw [← hstep] at hn hmem
        refine ⟨n, hn, ?_, le_trans hle hmxn, ?_⟩
        · rcases hmem with h | h
          · rw [h]
            exact Or.inr (List.mem_cons_self ..)
          · exact Or.inr (List.mem_cons_of_mem _ h)
        · intro y hy i hli
          rcases List.mem_cons.mp hy with rfl | hy'
          · have hi : i = mx := by
              rw [hli] at hmx
              simpa using hmx
            rw [hi]
            exact hmxn
          · exact hcov y hy' i hli
      · have hstep : maxFold key b (x :: rest) = maxFold key b rest := by
          have h0 : maxFold key b (x :: rest)
              = maxFold key
                  (if valueLe ((lookupField key b).getD .vNull)
                      ((lookupField key x).getD .vNull) then x else b) rest := rfl
          rw [h0, hval]
          simp [hle]
        obtain ⟨n, hn, hmem, hmbn, hcov⟩ := ih b mb hb hrest
        rw [← hstep] at hn hmem
        refine ⟨n, hn, ?_, hmbn, ?_⟩
        · rcases hmem with h | h
          · exact Or.inl h
          · exact Or.inr (List.mem_cons_of_mem _ h)
        · intro y hy i hli
          rcases List.mem_cons.mp hy with rfl | hy'
          · have hi : i = mx := by
              rw [hli] at hmx
              simpa using hmx
            rw [hi]
            exact le_trans (le_of_not_le hle) hmbn
          · exact hcov y hy' i hli

theorem maxByKey_spec (key : String) (l : List Doc)
    (hall : allIntAt key l = true) (hne : l ≠ []) :
    ∃ (d : Doc) (n : Int),
      maxByKey key l = some d ∧ lookupField key d = some (.vInt n)
        ∧ n ∈ idsAt key l ∧ ∀ i ∈ idsAt key l, i ≤ n := by
  cases l with
  | nil => exact absurd rfl hne
  | cons b rest =>
      have hall' := hall
      rw [allIntAt, List.all_cons] at hall'
      obtain ⟨hb', hrest⟩ := Bool.and_eq_true_iff.mp hall'
      obtain ⟨mb, hmb⟩ := intAt_of_true hb'
      obtain ⟨n, hn, hmem, hmbn, hcov⟩ := maxFold_spec key rest b mb hmb hrest
      refine ⟨maxFold key b rest, n, rfl, hn, ?_, ?_⟩
      · rw [idsAt_mem]
        refine ⟨maxFold key b rest, ?_, hn⟩
        rcases hmem with h | h
        · rw [h]
          exact List.mem_cons_self ..
        · exact List.mem_cons_of_mem _ h
      · intro i hi
        obtain ⟨x, hx, hlx⟩ := (idsAt_mem key _ i).mp hi
        rcases List.mem_cons.mp hx with rfl | hx'
        · have hi' : i = mb := by
            rw [hlx] at hmb
            simpa using hmb
          rw [hi']
          exact hmbn
        · exact hcov x hx' i hlx

/-- C3: the allocator returns 1 on an empty collection, and otherwise one
plus the maximum identifier among the currently stored records — for
students and for courses — always recomputed from the current store
state (the allocator is a pure function of the store). -/
theorem claim_C3_next_id :
    (∀ db : DB, allIntAt "student_id" db.students = true →
      (db.students = [] → FastapiMongo.get_next_student_id db = some 1)
        ∧ ∀ m : Int, m ∈ idsAt "student_id" db.students →
            (∀ i ∈ idsAt "student_id" db.students, i ≤ m) →
            FastapiMongo.get_next_student_id db = some (m + 1))
      ∧ (∀ db : DB, allIntAt "course_id" db.courses = true →
          (db.courses = [] → FastapiMongo.get_next_course_id db = some 1)
            ∧ ∀ m : Int, m ∈ idsAt "course_id" db.courses →
                (∀ i ∈ idsAt "course_id" db.courses, i ≤ m) →
                FastapiMongo.get_next_course_id db = some (m + 1)) := by
  constructor
  · intro db hall
    constructor
    · intro hempty
      unfold FastapiMongo.get_next_student_id
      rw [hempty]
      rfl
    · intro m hm hmax
      have hne : db.students ≠ [] := by
        intro he
        rw [he] at hm
        simp [idsAt] at hm
      obtain ⟨d, n, hmk, hlook, hmem, hcov⟩ :=
        maxByKey_spec "student_id" db.students hall hne
      have hnm : n = m := le_antisymm (hmax n hmem) (hcov m hm)
      simp [FastapiMongo.get_next_student_id, hmk, hlook, hnm]
  · intro db hall
    constructor
    · intro hempty
      unfold FastapiMongo.get_next_course_id
      rw [hempty]
      rfl
    · intro m hm hmax
      have hne : db.courses ≠ [] := by
        intro he
        rw [he] at hm
        simp [idsAt] at hm
      obtain ⟨d, n, hmk, hlook, hmem, hcov⟩ :=
        maxByKey_spec "course_id" db.courses hall hne
      have hnm : n = m := le_antisymm (hmax n hmem) (hcov m hm)
      simp [FastapiMongo.get_next_course_id, hmk, hlook, hnm]

/-- C3 witness: the allocator on an empty store and on stores whose
maximal identifiers are 5 (students) and 9 (courses). -/
theorem claim_C3_witness :
    FastapiMongo.get_next_student_id ⟨[], [], []⟩ = some 1
      ∧ FastapiMongo.get_next_student_id
          ⟨[[("student_id", Value.vInt 2)], [("student_id", Value.vInt 5)]], [], []⟩
        = some (5 + 1)
      ∧ FastapiMongo.get_next_course_id
          ⟨[], [[("course_id", Value.vInt 9)]], []⟩
        = some (9 + 1) :=
  ⟨(claim_C3_next_id.1 ⟨[], [], []⟩ (by decide)).1 rfl,
   (claim_C3_next_id.1
      ⟨[[("student_id", Value.vInt 2)], [("student_id", Value.vInt 5)]], [], []⟩
      (by decide)).2 5 (by decide) (by decide),
   (claim_C3_next_id.2 ⟨[], [[("course_id", Value.vInt 9)]], []⟩
      (by decide)).2 9 (by decide) (by decide)⟩

theorem next_gt (db : DB) (hall : allIntAt "student_id" db.students = true) :
    ∃ n : Int, FastapiMongo.get_next_student_id db = some n
      ∧ ∀ i ∈ idsAt "student_id" db.students, i < n := by
  by_cases he : db.students = []
  · refine ⟨1, ?_, ?_⟩
    · unfold FastapiMongo.get_next_student_id
      rw [he]
      rfl
    · intro i hi
      rw [he] at hi
      simp [idsAt] at hi
  · obtain ⟨d, n, hmk, hlook, hmem, hcov⟩ :=
      maxByKey_spec "student_id" db.students hall he
    refine ⟨n + 1, ?_, ?_⟩
    · simp [FastapiMongo.get_next_student_id, hmk, hlook]
    · intro i hi
      exact lt_of_le_of_lt (hcov i hi) (lt_add_one n)

theorem formStudentDoc_id (n : Int) (nm : String) (a : Int) (g e : String) :
    lookupField "student_id" (FastapiMongo.formStudentDoc n nm a g e)
      = some (.vInt n) := by
  simp [FastapiMongo.formStudentDoc, lookupField]

theorem submit_student_eq (db : DB) (n : Int) (nm : String) (a : Int) (g e : String)
    (hn : FastapiMongo.get_next_student_id db = some n) :
    FastapiMongo.submit_student nm a g e db
      = some { db with students :=
          db.students ++ [FastapiMongo.formStudentDoc n nm a g e] } := by
  unfold FastapiMongo.submit_student
  rw [hn]
  rfl

theorem allIntAt_append_form (db : DB) (n : Int) (nm : String) (a : Int) (g e : String)
    (hall : allIntAt "student_id" db.students = true) :
    allIntAt "student_id"
      (db.students ++ [FastapiMongo.formStudentDoc n nm a g e]) = true := by
  rw [allIntAt] at hall ⊢
  rw [List.all_append, hall]
  simp [FastapiMongo.formStudentDoc, lookupField]

theorem idsAt_append_form (l : List Doc) (n : Int) (nm : String) (a : Int) (g e : String) :
    idsAt "student_id" (l ++ [FastapiMongo.formStudentDoc n nm a g e])
      = idsAt "student_id" l ++ [n] := by
  rw [idsAt, List.filterMap_append]
  congr 1

theorem allocRun_succ (k : Nat) (db : DB) (n : Int)
    (hn : FastapiMongo.get_next_student_id db = some n) :
    FastapiMongo.allocRun (k + 1) db
      = n :: FastapiMongo.allocRun k
          { db with students :=
              db.students ++ [FastapiMongo.formStudentDoc n "s" 0 "A" "s@x"] } := by
  rw [FastapiMongo.allocRun, hn, submit_student_eq db n "s" 0 "A" "s@x" hn]

theorem allocRun_gt (k : Nat) :
    ∀ db : DB, allIntAt "student_id" db.students = true →
      ∀ m ∈ FastapiMongo.allocRun k db,
        ∀ i ∈ idsAt "student_id" db.students, i < m := by
  induction k with
  | zero =>
      intro db _ m hm
      rw [FastapiMongo.allocRun] at hm
      simp at hm
  | succ k ih =>
      intro db hall m hm i hi
      obtain ⟨n, hn, hgt⟩ := next_gt db hall
      rw [allocRun_succ k db n hn] at hm
      rcases List.mem_cons.mp hm with rfl | hm'
      · exact hgt i hi
      · have hall' := allIntAt_append_form db n "s" 0 "A" "s@x" hall
        refine ih _ hall' m hm' i ?_
        rw [idsAt_append_form]
        exact List.mem_append_left _ hi

/-- C4 counterexample: starting from an empty store, two form creations
allocate the identifiers 1 and 2; deleting student 2 (who has no
enrollments) succeeds, and the very next allocation returns 2 again — a
previously allocated identifier is reused after the record holding the
maximum is deleted. -/
theorem claim_C4_cex :
    FastapiMongo.allocRun 2 ⟨[], [], []⟩ = [1, 2]
      ∧ (FastapiMongo.delete_student 2
          ((FastapiMongo.submit_student "s" 0 "A" "s@x"
            ((FastapiMongo.submit_student "s" 0 "A" "s@x" ⟨[], [], []⟩).getD
              ⟨[], [], []⟩)).getD ⟨[], [], []⟩)).1
        = .ok [("deleted_count", Value.vInt 1)]
      ∧ FastapiMongo.get_next_student_id
          ((FastapiMongo.delete_student 2
            ((FastapiMongo.submit_student "s" 0 "A" "s@x"
              ((FastapiMongo.submit_student "s" 0 "A" "s@x" ⟨[], [], []⟩).getD
                ⟨[], [], []⟩)).getD ⟨[], [], []⟩)).2)
        = some 2 := by
  decide

/-- C4 (amended): over any run of allocator-assigned student creations
with no interleaved deletions, the values returned by
`get_next_student_id` are pairwise distinct; reuse can occur only once the
record holding the maximum identifier is deleted between allocations. -/
theorem claim_C4_no_reuse :
    ∀ (k : Nat) (db : DB), allIntAt "student_id" db.students = true →
      (FastapiMongo.allocRun k db).Pairwise (· ≠ ·) := by
  intro k
  induction k with
  | zero =>
      intro db _
      rw [FastapiMongo.allocRun]
      exact List.Pairwise.nil
  | succ k ih =>
      intro db hall
      obtain ⟨n, hn, _⟩ := next_gt db hall
      rw [allocRun_succ k db n hn]
      have hall' := allIntAt_append_form db n "s" 0 "A" "s@x" hall
      refine List.Pairwise.cons ?_ (ih _ hall')
      intro m hm
      have hlt := allocRun_gt k _ hall' m hm n ?_
      · exact ne_of_lt hlt
      · rw [idsAt_append_form]
        exact List.mem_append_right _ (List.mem_cons_self ..)

/-- C4 witness: three creation-only allocations from an empty store yield
the pairwise-distinct identifiers 1, 2, 3. -/
theorem claim_C4_witness :
    (FastapiMongo.allocRun 3 ⟨[], [], []⟩).Pairwise (· ≠ ·) :=
  claim_C4_no_reuse 3 ⟨[], [], []⟩ (by decide)
